import Mathlib

/-!
Shallow embedding of `modules/l4remoteiplist/iplist.go` (caddy-l4 remote IP
list): an IP list loaded lazily from a text file, matched by linear scan.
The Go standard-library pieces the file relies on (`net/netip` address
parsing and comparison, `bufio` line scanning, `path/filepath.Dir`) are
embedded alongside, faithful to their documented behaviour, since the list
semantics depend on them.  Filesystem access and effects are made explicit:
the filesystem is a function from paths to file nodes, and the stateful
methods of `IPList` become state-passing functions.
-/

namespace L4RemoteIPList

/-- Models Go `net/netip.Addr`: an IPv4 address (32-bit value) or an IPv6
address (128-bit value plus zone string).  `netip` keeps 4-in-6 mapped
addresses as IPv6, so the constructor records the genuine address family. -/
inductive Addr where
  | v4 (n : Nat)
  | v6 (n : Nat) (zone : String)
deriving DecidableEq, Repr

/-- Models `netip.Addr.BitLen`: 32 for IPv4, 128 for IPv6. -/
def Addr.bitLen : Addr → Nat
  | .v4 _ => 32
  | .v6 _ _ => 128

/-- The numeric value an address compares by (the 128-bit `addr` field of
`netip.Addr`; for two IPv4 addresses the common 4-in-6 offset cancels, so
the raw 32-bit value compares identically). -/
def Addr.value : Addr → Nat
  | .v4 n => n
  | .v6 n _ => n

/-- Models `netip.Addr.Compare`: order by bit length, then by the 128-bit
value, then (for IPv6) by zone. -/
def Addr.Compare (a b : Addr) : Int :=
  if a.bitLen < b.bitLen then -1
  else if b.bitLen < a.bitLen then 1
  else if a.value < b.value then -1
  else if b.value < a.value then 1
  else match a, b with
    | .v6 _ z1, .v6 _ z2 =>
        if z1 < z2 then -1 else if z2 < z1 then 1 else 0
    | _, _ => 0

/-! ## IPv4 parsing (Go `net/netip.parseIPv4Fields`) -/

/-- Digit value of a decimal character, if any. -/
def decDigitVal (c : Char) : Option Nat :=
  if '0' ≤ c ∧ c ≤ '9' then some (c.toNat - '0'.toNat) else none

/-- Models the loop of Go `netip.parseIPv4Fields`: scan characters keeping
the current octet value `val`, the digit count `digLen` of the current
octet, and the completed `fields`.  Rejects leading zeros, octets above
255, empty octets, more than four octets, and non-digit non-dot
characters; at end of input the final octet is appended (fewer than four
octets is "too short"). -/
def parseIPv4Fields : List Char → Nat → Nat → List Nat → Option (List Nat)
  | [], val, _, fields =>
      if fields.length < 3 then none else some (fields ++ [val])
  | c :: rest, val, digLen, fields =>
      match decDigitVal c with
      | some d =>
          if digLen = 1 ∧ val = 0 then none
          else
            let val' := val * 10 + d
            if val' > 255 then none
            else parseIPv4Fields rest val' (digLen + 1) fields
      | none =>
          if c = '.' then
            if digLen = 0 ∨ rest = [] then none
            else if fields.length = 3 then none
            else parseIPv4Fields rest 0 0 (fields ++ [val])
          else none

/-- Models Go `netip.parseIPv4` restricted to the four octet values: parse
a dotted-quad IPv4 address into its four bytes. -/
def parseIPv4Bytes (s : List Char) : Option (List Nat) :=
  parseIPv4Fields s 0 0 []

/-- Fold a big-endian byte list into a natural number. -/
def bytesToNat (bs : List Nat) : Nat :=
  bs.foldl (fun acc b => acc * 256 + b) 0

/-- Models Go `netip.parseIPv4`: parse a dotted-quad IPv4 address. -/
def parseIPv4 (s : List Char) : Option Addr :=
  (parseIPv4Bytes s).map fun f => .v4 (bytesToNat f)

/-! ## IPv6 parsing (Go `net/netip.parseIPv6`) -/

/-- Hex digit value of a character, if any (both cases accepted). -/
def hexDigitVal (c : Char) : Option Nat :=
  if '0' ≤ c ∧ c ≤ '9' then some (c.toNat - '0'.toNat)
  else if 'a' ≤ c ∧ c ≤ 'f' then some (c.toNat - 'a'.toNat + 10)
  else if 'A' ≤ c ∧ c ≤ 'F' then some (c.toNat - 'A'.toNat + 10)
  else none

/-- Models the hex-group scan at the top of Go `netip.parseIPv6`'s loop:
accumulate leading hex digits of `s` into `acc` counting them in `off`;
a fifth digit is an error ("each group must have 4 or less digits").
Returns the accumulated value, the digit count, and the unconsumed rest. -/
def scanHexGroup : List Char → Nat → Nat → Option (Nat × Nat × List Char)
  | [], acc, off => some (acc, off, [])
  | c :: rest, acc, off =>
      match hexDigitVal c with
      | none => some (acc, off, c :: rest)
      | some d =>
          if off ≥ 4 then none
          else scanHexGroup rest (acc * 16 + d) (off + 1)

/-- Models the main loop of Go `netip.parseIPv6` (fuel-indexed; the loop
writes two bytes per iteration into a 16-byte address, so fuel 17 is never
exhausted).  `ip` is the list of bytes written so far, `ell` the position
of the `::` ellipsis if one was seen.  Handles: a hex group followed by
`:`/end, the `::` ellipsis (at most one), and a trailing embedded IPv4
address (which must either follow an ellipsis or start at byte 12, and is
parsed by `parseIPv4Bytes` from the start of the current group). -/
def parseV6Loop : Nat → List Char → List Nat → Option Nat → Option (List Nat × Option Nat)
  | 0, _, _, _ => none
  | fuel + 1, s, ip, ell =>
      if ip.length ≥ 16 then
        if s = [] then some (ip, ell) else none
      else
        match scanHexGroup s 0 0 with
        | none => none
        | some (acc, off, rest) =>
          if off = 0 then none
          else if rest.head? = some '.' then
            if ell = none ∧ ip.length ≠ 12 then none
            else if ip.length + 4 > 16 then none
            else match parseIPv4Bytes s with
              | none => none
              | some fields => some (ip ++ fields, ell)
          else
            let ip' := ip ++ [acc / 256, acc % 256]
            match rest with
            | [] => some (ip', ell)
            | ':' :: [] => none
            | ':' :: ':' :: rest3 =>
                if ell.isSome then none
                else match rest3 with
                  | [] => some (ip', some ip'.length)
                  | _ => parseV6Loop fuel rest3 ip' (some ip'.length)
            | ':' :: rest2 => parseV6Loop fuel rest2 ip' ell
            | _ => none

/-- Split off the zone at the last `%`, as Go `netip.parseIPv6` does
before parsing the address body. -/
def splitLastPercent (cs : List Char) : List Char × Option String :=
  if '%' ∈ cs then
    let r := cs.reverse
    let zoneRev := r.takeWhile (· ≠ '%')
    let bodyRev := (r.dropWhile (· ≠ '%')).tail
    (bodyRev.reverse, some (String.mk zoneRev.reverse))
  else (cs, none)

/-- Post-loop phase of Go `netip.parseIPv6`: if fewer than 16 bytes were
written, an ellipsis must be present and expands to the missing zero
bytes at its recorded position; if all 16 bytes were written, an ellipsis
is an error ("the :: must expand to at least one field of zeros"). -/
def parseV6Finish (s : List Char) (ell0 : Option Nat) (zone : String) : Option Addr :=
  match parseV6Loop 17 s [] ell0 with
  | none => none
  | some (ip, ell) =>
      if ip.length < 16 then
        match ell with
        | none => none
        | some e =>
            let n := 16 - ip.length
            some (.v6 (bytesToNat (ip.take e ++ List.replicate n 0 ++ ip.drop e)) zone)
      else
        match ell with
        | some _ => none
        | none => some (.v6 (bytesToNat ip) zone)

/-- Models Go `netip.parseIPv6`: split off the zone (which must be
non-empty if present), recognise a leading `::` (alone it denotes the
unspecified address), then run the group loop and the ellipsis
expansion. -/
def parseIPv6 (cs : List Char) : Option Addr :=
  let bz := splitLastPercent cs
  if bz.2 = some "" then none
  else
    let zone := bz.2.getD ""
    match bz.1 with
    | ':' :: ':' :: rest =>
        if rest = [] then some (.v6 0 zone)
        else parseV6Finish rest (some 0) zone
    | body => parseV6Finish body none zone

/-- Models Go `netip.ParseAddr`: dispatch on the first of `.`, `:`, `%`
found scanning left to right — `.` means IPv4, `:` means IPv6, `%` (or no
special character at all) is an error. -/
def ParseAddr (s : String) : Option Addr :=
  match s.toList.find? (fun c => c = '.' || c = ':' || c = '%') with
  | some '.' => parseIPv4 s.toList
  | some ':' => parseIPv6 s.toList
  | _ => none

/-! ## Filesystem model

`os.Lstat`, `os.Open` and `bufio.Scanner` are embedded as an explicit
filesystem: a function from paths to nodes.  A regular file carries its
content and an `ioErr` flag modelling an `os.Open` or scanner read failure
on an existing file (both surface identically in `loadIPAddresses`: an
error before the snapshot assignment). -/

inductive FileNode where
  | absent
  | dir
  | file (content : String) (ioErr : Bool)
deriving DecidableEq, Repr

abbrev FS := String → FileNode

def FileNode.isDir : FileNode → Bool
  | .dir => true
  | _ => false

/-- Models Go `path/filepath.Dir` on slash-separated paths free of `.` and
`..` components: everything up to the last `/` with trailing slashes
cleaned (`/` if that is empty and the path is rooted), or `.` when the
path has no slash. -/
def filepathDir (p : String) : String :=
  let cs := p.toList
  if '/' ∈ cs then
    let upto := cs.reverse.dropWhile (· ≠ '/')
    let cleaned := upto.dropWhile (· = '/')
    if cleaned = [] then "/" else String.mk cleaned.reverse
  else "."

/-- Drop one trailing carriage return, as `bufio.dropCR` does. -/
def dropCR (s : List Char) : List Char :=
  match s.reverse with
  | '\r' :: rest => rest.reverse
  | _ => s

/-- Split a character list at newline characters, accumulating the
current line in reverse (structural recursion, so that concrete file
contents evaluate by kernel reduction). -/
def splitNewlines : List Char → List Char → List (List Char)
  | [], cur => [cur.reverse]
  | c :: rest, cur =>
      if c = '\n' then cur.reverse :: splitNewlines rest []
      else splitNewlines rest (c :: cur)

/-- Models `bufio.Scanner` with `bufio.ScanLines`: split on newlines,
dropping one trailing carriage return per line; a final line without a
terminating newline is still produced, while a terminating newline does
not produce an empty final line. -/
def scanLines (content : String) : List String :=
  let parts := splitNewlines content.toList []
  let parts := if parts.getLast? = some [] then parts.dropLast else parts
  parts.map fun p => String.mk (dropCR p)

/-! ## The IPList (from `iplist.go`)

The Go struct's `ctx`, `logger` and mutex fields are effects, not data:
logging is dropped, the context only governs watcher shutdown, and the
mutex serialises the reload step (queries become state-passing functions,
and the concurrency claims use an interleaving step relation below). -/

structure IPList where
  ipFile : String
  ipAddresses : List Addr
  reloadNeeded : Bool
deriving DecidableEq, Repr

/-- Models `IPList.ipFileDirectoryExists`: `os.Lstat` on the directory of
`ipFile` must succeed and report a directory. -/
def IPList.ipFileDirectoryExists (b : IPList) (fs : FS) : Bool :=
  (fs (filepathDir b.ipFile)).isDir

/-- Models `IPList.ipFileExists`: `os.Lstat` on `ipFile` must succeed and
must not report a directory. -/
def IPList.ipFileExists (b : IPList) (fs : FS) : Bool :=
  match fs b.ipFile with
  | .file _ _ => true
  | _ => false

/-- Models `NewIPList`: build the list (dirty, no addresses loaded yet) and
fail if the directory containing `ipFile` does not exist. -/
def NewIPList (ipFile : String) (fs : FS) : Except String IPList :=
  let ipList : IPList := { ipFile := ipFile, ipAddresses := [], reloadNeeded := true }
  if ipList.ipFileDirectoryExists fs then Except.ok ipList
  else Except.error "could not find the directory containing the IP file to monitor"

/-- Models the scanner loop of `IPList.loadIPAddresses`: each line is
parsed with `netip.ParseAddr` and only successfully parsed addresses are
appended, in line order. -/
def parseLinesLoop : List String → List Addr → List Addr
  | [], acc => acc
  | line :: rest, acc =>
      match ParseAddr line with
      | some ip => parseLinesLoop rest (acc ++ [ip])
      | none => parseLinesLoop rest acc

/-- Models `IPList.loadIPAddresses`: a missing (or directory) path yields
an empty snapshot and no error; an existing file is opened and scanned
line by line, an open/read failure is an error returned before the
snapshot assignment, and on success the snapshot is replaced wholesale. -/
def IPList.loadIPAddresses (b : IPList) (fs : FS) : Except String IPList :=
  if b.ipFileExists fs = false then
    Except.ok { b with ipAddresses := [] }
  else
    match fs b.ipFile with
    | .file content ioErr =>
        if ioErr then Except.error "error opening or reading the IP list file"
        else Except.ok { b with ipAddresses := parseLinesLoop (scanLines content) [] }
    | _ => Except.ok b   -- unreachable: ipFileExists is true only on .file

/-- The locked prologue of `IsMatched`: reload if the dirty flag is set;
on success clear the flag, on failure keep flag and snapshot (the error is
only logged). -/
def IPList.maybeReload (b : IPList) (fs : FS) : IPList :=
  if b.reloadNeeded then
    match b.loadIPAddresses fs with
    | Except.ok b' => { b' with reloadNeeded := false }
    | Except.error _ => b
  else b

/-- The scan loop of `IsMatched`: linear scan, true on the first address
comparing equal, false when the list is exhausted. -/
def scanList (ips : List Addr) (ip : Addr) : Bool :=
  match ips with
  | [] => false
  | listIP :: rest => if listIP.Compare ip = 0 then true else scanList rest ip

/-- Models `IPList.IsMatched` as a state-passing function: reload if
needed under the lock, then linear-scan the stored snapshot. -/
def IPList.IsMatched (b : IPList) (fs : FS) (ip : Addr) : Bool × IPList :=
  let b' := b.maybeReload fs
  (scanList b'.ipAddresses ip, b')

/-- The number of `loadIPAddresses` invocations a single `IsMatched` call
performs from state `b`: the parser runs exactly when the dirty flag is
set. -/
def IPList.reloadsPerformed (b : IPList) : Nat :=
  if b.reloadNeeded then 1 else 0

/-- A sequence of `IsMatched` queries threaded through the state. -/
def queryAll (b : IPList) (fs : FS) : List Addr → List Bool
  | [] => []
  | ip :: rest =>
      let r := b.IsMatched fs ip
      r.1 :: queryAll r.2 fs rest

/-! ## Watcher event handling (from `IPList.monitor`) -/

/-- An `fsnotify.Event`: a path and an op bitmask, modelled as one flag
per bit (`e.Has(op)` reads the corresponding field). -/
structure FsEvent where
  name : String
  create : Bool
  write : Bool
  remove : Bool
  rename : Bool
  chmod : Bool
deriving DecidableEq, Repr

/-- Models the event branch of `IPList.monitor`: the dirty flag is set
(under the lock) exactly when the event's path equals `ipFile` and the
event has the Create or Write bit; every other event leaves the state
unchanged. -/
def IPList.monitorHandleEvent (b : IPList) (e : FsEvent) : IPList :=
  if b.ipFile = e.name ∧ (e.create = true ∨ e.write = true) then
    { b with reloadNeeded := true }
  else b

/-! ## Interleaving model for concurrent queries (for the concurrency claim)

The mutex serialises the reload phase of `IsMatched`, and the two shared
writes the code performs are each a single assignment: the watcher's
`reloadNeeded = true` and the reload's `ipAddresses = ipAddresses`
(assigning a list built entirely in a local variable — the shared sequence
is never populated in place).  The scan reads `b.ipAddresses` once, after
the lock is released, so it is its own step that other threads' reloads
may interleave with.  A system trace is therefore a sequence of three
atomic step kinds: a query's locked reload phase (against the filesystem
it observes), the watcher marking the list dirty, and a query's snapshot
capture for its scan. -/

inductive Step where
  | reload (fs : FS)
  | markDirty
  | capture

/-- Run a trace from a state.  Returns the final state, the list of
snapshots captured by queries (in trace order), and the list of address
sequences produced by completed successful reloads (in trace order). -/
def runTrace : IPList → List Step → IPList × List (List Addr) × List (List Addr)
  | b, [] => (b, [], [])
  | b, Step.reload fs :: rest =>
      let out := runTrace (b.maybeReload fs) rest
      match b.reloadNeeded, b.loadIPAddresses fs with
      | true, Except.ok l => (out.1, out.2.1, l.ipAddresses :: out.2.2)
      | true, Except.error _ => out
      | false, _ => out
  | b, Step.markDirty :: rest =>
      runTrace { b with reloadNeeded := true } rest
  | b, Step.capture :: rest =>
      let out := runTrace b rest
      (out.1, b.ipAddresses :: out.2.1, out.2.2)

/-! ## Concrete fixtures used by witness theorems -/

/-- A filesystem with directory `/d` and file `/d/f` holding two IPv4
addresses and a comment line. -/
def fsOk : FS := fun p =>
  if p = "/d/f" then FileNode.file "10.0.0.1\n# comment\n10.0.0.2\n" false
  else if p = "/d" then FileNode.dir
  else FileNode.absent

/-- A filesystem where `/d/f` exists but reading it fails. -/
def fsErr : FS := fun p =>
  if p = "/d/f" then FileNode.file "10.0.0.1\n" true
  else if p = "/d" then FileNode.dir
  else FileNode.absent

/-- A filesystem with directory `/d` and no file `/d/f`. -/
def fsAbsent : FS := fun p =>
  if p = "/d" then FileNode.dir else FileNode.absent

/-- A filesystem where the configured path `/d/f` is itself a directory. -/
def fsDirAtFile : FS := fun p =>
  if p = "/d/f" then FileNode.dir
  else if p = "/d" then FileNode.dir
  else FileNode.absent

/-- A dirty list over `/d/f` with a stale one-address snapshot. -/
def bEx : IPList :=
  { ipFile := "/d/f", ipAddresses := [Addr.v4 1], reloadNeeded := true }

/-- The state `bEx.loadIPAddresses fsOk` produces: the two addresses of
`/d/f`, the comment line dropped. -/
def lEx : IPList :=
  { ipFile := "/d/f", ipAddresses := [Addr.v4 0x0A000001, Addr.v4 0x0A000002],
    reloadNeeded := true }

/-- A trace interleaving captures with a reload. -/
def tr1 : List Step := [Step.capture, Step.reload fsOk, Step.capture]

/-- A reload-free trace: captures and a watcher event only. -/
def tr2 : List Step := [Step.capture, Step.markDirty, Step.capture]

/-- A clean (not dirty) list over `/d/f`. -/
def bClean : IPList :=
  { ipFile := "/d/f", ipAddresses := [Addr.v4 1], reloadNeeded := false }

/-- A write event for the watched file. -/
def evWrite : FsEvent :=
  { name := "/d/f", create := false, write := true, remove := false,
    rename := false, chmod := false }

/-- A remove (delete) event for the watched file. -/
def evRemove : FsEvent :=
  { name := "/d/f", create := false, write := false, remove := true,
    rename := false, chmod := false }

/-- A create-and-write event for a different path in the same directory. -/
def evOther : FsEvent :=
  { name := "/d/g", create := true, write := true, remove := false,
    rename := false, chmod := false }

/-! # Theorems -/

theorem Addr.compare_eq_zero_iff (a b : Addr) : Addr.Compare a b = 0 ↔ a = b := by
  constructor
  · intro h
    cases a with
    | v4 n =>
      cases b with
      | v4 m =>
        simp only [Addr.Compare, Addr.bitLen, Addr.value] at h
        by_cases h1 : n < m
        · simp [h1] at h
        · by_cases h2 : m < n
          · simp [h1, h2] at h
          · have : n = m := Nat.le_antisymm (Nat.not_lt.mp h2) (Nat.not_lt.mp h1)
            simp [this]
      | v6 m z =>
        simp [Addr.Compare, Addr.bitLen] at h
    | v6 n z1 =>
      cases b with
      | v4 m =>
        simp [Addr.Compare, Addr.bitLen] at h
      | v6 m z2 =>
        simp only [Addr.Compare, Addr.bitLen, Addr.value] at h
        by_cases h1 : n < m
        · simp [h1] at h
        · by_cases h2 : m < n
          · simp [h1, h2] at h
          · have hnm : n = m := Nat.le_antisymm (Nat.not_lt.mp h2) (Nat.not_lt.mp h1)
            by_cases h3 : z1 < z2
            · simp [h1, h2, h3] at h
            · by_cases h4 : z2 < z1
              · simp [h1, h2, h3, h4] at h
              · have hz : z1 = z2 := le_antisymm (not_lt.mp h4) (not_lt.mp h3)
                simp [hnm, hz]
  · intro h
    subst h
    cases a with
    | v4 n => simp [Addr.Compare]
    | v6 n z => simp [Addr.Compare]

theorem scanList_true_iff (ips : List Addr) (ip : Addr) :
    scanList ips ip = true ↔ ip ∈ ips := by
  induction ips with
  | nil => simp [scanList]
  | cons a rest ih =>
    by_cases h : a.Compare ip = 0
    · have ha : a = ip := (Addr.compare_eq_zero_iff a ip).mp h
      subst ha
      constructor
      · intro _; exact List.mem_cons_self _ _
      · intro _; simp only [scanList, if_pos h]
    · simp only [scanList, if_neg h, ih, List.mem_cons]
      constructor
      · exact Or.inr
      · rintro (he | hm)
        · exact absurd ((Addr.compare_eq_zero_iff a ip).mpr he.symm) h
        · exact hm

theorem parseLinesLoop_eq (lines : List String) (acc : List Addr) :
    parseLinesLoop lines acc = acc ++ lines.filterMap ParseAddr := by
  induction lines generalizing acc with
  | nil => simp [parseLinesLoop]
  | cons line rest ih =>
    cases h : ParseAddr line with
    | none => simp [parseLinesLoop, h, ih]
    | some ip => simp [parseLinesLoop, h, ih]

theorem loadIPAddresses_file (b : IPList) (fs : FS) (content : String) (ioErr : Bool)
    (hfile : fs b.ipFile = FileNode.file content ioErr) :
    b.loadIPAddresses fs =
      if ioErr then Except.error "error opening or reading the IP list file"
      else Except.ok { b with ipAddresses := parseLinesLoop (scanLines content) [] } := by
  have hex : b.ipFileExists fs = true := by
    simp [IPList.ipFileExists, hfile]
  simp [IPList.loadIPAddresses, hex, hfile]

theorem loadIPAddresses_no_file (b : IPList) (fs : FS)
    (hnf : b.ipFileExists fs = false) :
    b.loadIPAddresses fs = Except.ok { b with ipAddresses := [] } := by
  simp [IPList.loadIPAddresses, hnf]

/-- Queries from a state whose path holds no regular file, and which is
dirty or already has an empty snapshot, all answer false. -/
theorem queryAll_no_file_all_false (ips : List Addr) :
    ∀ b : IPList, ∀ fs : FS, b.ipFileExists fs = false →
      (b.reloadNeeded = true ∨ b.ipAddresses = []) →
      queryAll b fs ips = ips.map (fun _ => false) := by
  induction ips with
  | nil => intro b fs _ _; simp [queryAll]
  | cons ip rest ih =>
    intro b fs hnf hstate
    by_cases hd : b.reloadNeeded
    · have hload := loadIPAddresses_no_file b fs hnf
      have hmr : b.maybeReload fs = { b with ipAddresses := [], reloadNeeded := false } := by
        simp [IPList.maybeReload, hd, hload]
      have hnf' : ({ b with ipAddresses := [], reloadNeeded := false } : IPList).ipFileExists fs = false := hnf
      simp [queryAll, IPList.IsMatched, hmr, scanList,
        ih _ fs hnf' (Or.inr rfl)]
    · have hempty : b.ipAddresses = [] := hstate.resolve_left (by simpa using hd)
      have hmr : b.maybeReload fs = b := by simp [IPList.maybeReload, hd]
      simp [queryAll, IPList.IsMatched, hmr, hempty, scanList,
        ih b fs hnf (Or.inr hempty)]

/-- C1: `IsMatched` answers true exactly when some address of the current
(post-reload) snapshot compares equal to the queried address — i.e. when
the address is a member of the snapshot — by a linear scan that returns
true on the first comparing-equal entry and false when the list is
exhausted. -/
theorem isMatched_true_iff_mem_snapshot (b : IPList) (fs : FS) (ip : Addr) :
    ((b.IsMatched fs ip).1 = true ↔ ∃ a ∈ (b.IsMatched fs ip).2.ipAddresses, a.Compare ip = 0)
    ∧ ((b.IsMatched fs ip).1 = true ↔ ip ∈ (b.IsMatched fs ip).2.ipAddresses)
    ∧ (b.IsMatched fs ip).1 = scanList (b.IsMatched fs ip).2.ipAddresses ip
    ∧ (∀ front back : List Addr, ip ∉ front →
        scanList (front ++ ip :: back) ip = true)
    ∧ scanList [] ip = false := by
  have hfst : (b.IsMatched fs ip).1 = scanList (b.IsMatched fs ip).2.ipAddresses ip := rfl
  refine ⟨?_, ?_, rfl, ?_, rfl⟩
  · rw [hfst, scanList_true_iff]
    constructor
    · intro h; exact ⟨ip, h, (Addr.compare_eq_zero_iff ip ip).mpr rfl⟩
    · rintro ⟨a, ha, hc⟩
      rwa [(Addr.compare_eq_zero_iff a ip).mp hc] at ha
  · rw [hfst]; exact scanList_true_iff _ _
  · intro front back _
    rw [scanList_true_iff]
    exact List.mem_append_right _ (List.mem_cons_self _ _)

/-- Witness for C1: membership decides the match on a concrete clean list,
and the scan stops at the first comparing-equal entry. -/
theorem isMatched_true_iff_mem_snapshot_witness :
    ((bClean.IsMatched fsAbsent (Addr.v4 1)).1 = true ↔
      Addr.v4 1 ∈ (bClean.IsMatched fsAbsent (Addr.v4 1)).2.ipAddresses)
    ∧ scanList ([Addr.v4 2] ++ Addr.v4 1 :: []) (Addr.v4 1) = true :=
  ⟨(isMatched_true_iff_mem_snapshot bClean fsAbsent (Addr.v4 1)).2.1,
   (isMatched_true_iff_mem_snapshot bClean fsAbsent (Addr.v4 1)).2.2.2.1
      [Addr.v4 2] [] (by decide)⟩

/-- C2: if the reload attempted inside `IsMatched` fails (the file exists
but opening/reading it errors), the dirty flag stays set and the stored
snapshot is served unchanged, so the next query retries the reload. -/
theorem isMatched_reload_failure_preserves_state (b : IPList) (fs : FS) (ip : Addr)
    (content : String)
    (hdirty : b.reloadNeeded = true)
    (hfile : fs b.ipFile = FileNode.file content true) :
    (b.IsMatched fs ip).2.reloadNeeded = true
    ∧ (b.IsMatched fs ip).2.ipAddresses = b.ipAddresses
    ∧ (b.IsMatched fs ip).2 = b := by
  have hload : b.loadIPAddresses fs = Except.error "error opening or reading the IP list file" := by
    simpa using loadIPAddresses_file b fs content true hfile
  have hmr : b.maybeReload fs = b := by
    simp [IPList.maybeReload, hdirty, hload]
  refine ⟨?_, ?_, ?_⟩ <;> simp [IPList.IsMatched, hmr, hdirty]

/-- Witness for C2 at a concrete dirty list and failing filesystem. -/
theorem isMatched_reload_failure_preserves_state_witness :
    (bEx.IsMatched fsErr (Addr.v4 1)).2.reloadNeeded = true
    ∧ (bEx.IsMatched fsErr (Addr.v4 1)).2.ipAddresses = bEx.ipAddresses
    ∧ (bEx.IsMatched fsErr (Addr.v4 1)).2 = bEx :=
  isMatched_reload_failure_preserves_state bEx fsErr (Addr.v4 1) "10.0.0.1\n" rfl rfl

/-- C3: loading from a path holding no file yields an empty address
sequence and no error, while an I/O failure on an existing file is
returned as an error and no result replaces the snapshot. -/
theorem load_absent_empty_ioError_hard (b : IPList) (fs : FS) (content : String) :
    (fs b.ipFile = FileNode.absent →
      b.loadIPAddresses fs = Except.ok { b with ipAddresses := [] })
    ∧ (fs b.ipFile = FileNode.file content true →
      b.loadIPAddresses fs = Except.error "error opening or reading the IP list file"
      ∧ ∀ b', b.loadIPAddresses fs ≠ Except.ok b') := by
  constructor
  · intro habs
    apply loadIPAddresses_no_file
    simp [IPList.ipFileExists, habs]
  · intro hfile
    have herr : b.loadIPAddresses fs =
        Except.error "error opening or reading the IP list file" := by
      simpa using loadIPAddresses_file b fs content true hfile
    exact ⟨herr, fun b' => by simp [herr]⟩

/-- Witness for C3: both the absent-file and the failing-file branch at
concrete filesystems. -/
theorem load_absent_empty_ioError_hard_witness :
    bEx.loadIPAddresses fsAbsent = Except.ok { bEx with ipAddresses := [] }
    ∧ (bEx.loadIPAddresses fsErr = Except.error "error opening or reading the IP list file"
      ∧ ∀ b', bEx.loadIPAddresses fsErr ≠ Except.ok b') :=
  ⟨(load_absent_empty_ioError_hard bEx fsAbsent "").1 rfl,
   (load_absent_empty_ioError_hard bEx fsErr "10.0.0.1\n").2 rfl⟩

/-- C4: on a readable file the loaded snapshot is exactly the successfully
parsed addresses of the file's lines, in line order, with no error, and a
line that fails to parse can be inserted anywhere without affecting the
parsed addresses. -/
theorem load_parses_lines_in_order (b : IPList) (fs : FS) (content : String)
    (pre post : List String) (bad : String)
    (hfile : fs b.ipFile = FileNode.file content false)
    (hbad : ParseAddr bad = none) :
    b.loadIPAddresses fs =
      Except.ok { b with ipAddresses := (scanLines content).filterMap ParseAddr }
    ∧ parseLinesLoop (pre ++ bad :: post) [] = parseLinesLoop (pre ++ post) [] := by
  constructor
  · have h := loadIPAddresses_file b fs content false hfile
    simpa [parseLinesLoop_eq] using h
  · simp [parseLinesLoop_eq, List.filterMap_append, List.filterMap_cons, hbad]

/-- Witness for C4: the fixture file with a comment line between two
addresses loads exactly the two addresses, and dropping the comment line
does not change the parse. -/
theorem load_parses_lines_in_order_witness :
    bEx.loadIPAddresses fsOk =
      Except.ok { bEx with ipAddresses :=
        (scanLines "10.0.0.1\n# comment\n10.0.0.2\n").filterMap ParseAddr }
    ∧ parseLinesLoop (["10.0.0.1"] ++ "# comment" :: ["10.0.0.2"]) [] =
      parseLinesLoop (["10.0.0.1"] ++ ["10.0.0.2"]) [] :=
  load_parses_lines_in_order bEx fsOk "10.0.0.1\n# comment\n10.0.0.2\n"
    ["10.0.0.1"] ["10.0.0.2"] "# comment" rfl rfl

/-- C5: construction fails exactly when the parent directory of the given
path does not exist or is not a directory; otherwise it succeeds and the
returned list carries the given path (dirty, with no addresses yet). -/
theorem newIPList_error_iff_dir_missing (ipFile : String) (fs : FS) :
    ((∃ e, NewIPList ipFile fs = Except.error e) ↔ (fs (filepathDir ipFile)).isDir = false)
    ∧ (∀ l, NewIPList ipFile fs = Except.ok l →
        l.ipFile = ipFile ∧ l = { ipFile := ipFile, ipAddresses := [], reloadNeeded := true }) := by
  constructor
  · by_cases h : (fs (filepathDir ipFile)).isDir
    · simp [NewIPList, IPList.ipFileDirectoryExists, h]
    · simp only [NewIPList, IPList.ipFileDirectoryExists] at *
      simp [h]
  · intro l hl
    by_cases h : (fs (filepathDir ipFile)).isDir
    · simp only [NewIPList, IPList.ipFileDirectoryExists] at hl
      simp [h] at hl
      exact ⟨by rw [← hl], hl.symm⟩
    · simp only [NewIPList, IPList.ipFileDirectoryExists] at hl
      simp [h] at hl

/-- Witness for C5: a path whose directory exists constructs the expected
list; a path with a missing directory fails. -/
theorem newIPList_error_iff_dir_missing_witness :
    (({ ipFile := "/d/f", ipAddresses := [], reloadNeeded := true } : IPList).ipFile = "/d/f"
      ∧ ({ ipFile := "/d/f", ipAddresses := [], reloadNeeded := true } : IPList)
          = { ipFile := "/d/f", ipAddresses := [], reloadNeeded := true })
    ∧ (∃ e, NewIPList "/x/f" fsOk = Except.error e) :=
  ⟨(newIPList_error_iff_dir_missing "/d/f" fsOk).2 _ rfl,
   (newIPList_error_iff_dir_missing "/x/f" fsOk).1.mpr rfl⟩

/-- C6: the watcher's event handler sets the dirty flag exactly on a
create or write event whose path equals the list file's path; an event for
any other path, or one without the create and write bits (in particular a
pure remove event), leaves the state unchanged. -/
theorem monitor_dirty_iff_create_write_exact_path (b : IPList) (e : FsEvent) :
    ((b.monitorHandleEvent e).reloadNeeded = true ↔
      (b.reloadNeeded = true ∨ (b.ipFile = e.name ∧ (e.create = true ∨ e.write = true))))
    ∧ (e.name ≠ b.ipFile → b.monitorHandleEvent e = b)
    ∧ (e.create = false → e.write = false → b.monitorHandleEvent e = b) := by
  refine ⟨?_, ?_, ?_⟩
  · by_cases h : b.ipFile = e.name ∧ (e.create = true ∨ e.write = true)
    · simp [IPList.monitorHandleEvent, h]
    · simp only [IPList.monitorHandleEvent, if_neg h]
      constructor
      · exact Or.inl
      · rintro (hb | hcw)
        · exact hb
        · exact absurd hcw h
  · intro hne
    rw [IPList.monitorHandleEvent, if_neg]
    rintro ⟨h1, -⟩
    exact hne h1.symm
  · intro hc hw
    rw [IPList.monitorHandleEvent, if_neg]
    rintro ⟨-, h2 | h2⟩
    · rw [hc] at h2; exact Bool.false_ne_true h2
    · rw [hw] at h2; exact Bool.false_ne_true h2

/-- Witness for C6: a write event for the watched file sets the flag, an
event for a sibling path does not, and a pure remove event for the watched
file does not. -/
theorem monitor_dirty_iff_create_write_exact_path_witness :
    (bClean.monitorHandleEvent evWrite).reloadNeeded = true
    ∧ bClean.monitorHandleEvent evOther = bClean
    ∧ bClean.monitorHandleEvent evRemove = bClean :=
  ⟨(monitor_dirty_iff_create_write_exact_path bClean evWrite).1.mpr
      (Or.inr ⟨rfl, Or.inr rfl⟩),
   (monitor_dirty_iff_create_write_exact_path bClean evOther).2.1 (by decide),
   (monitor_dirty_iff_create_write_exact_path bClean evRemove).2.2 rfl rfl⟩

/-- C7: over a path whose file does not exist (inside an existing
directory), construction succeeds and every query, threaded through the
state, returns false. -/
theorem fresh_absent_all_queries_false (path : String) (fs : FS)
    (hdir : (fs (filepathDir path)).isDir = true)
    (habs : fs path = FileNode.absent) :
    ∃ l, NewIPList path fs = Except.ok l
      ∧ ∀ ips, queryAll l fs ips = ips.map (fun _ => false) := by
  refine ⟨{ ipFile := path, ipAddresses := [], reloadNeeded := true }, ?_, ?_⟩
  · simp [NewIPList, IPList.ipFileDirectoryExists, hdir]
  · intro ips
    apply queryAll_no_file_all_false
    · simp [IPList.ipFileExists, habs]
    · exact Or.inl rfl

/-- Witness for C7 at a concrete directory-only filesystem. -/
theorem fresh_absent_all_queries_false_witness :
    ∃ l, NewIPList "/d/f" fsAbsent = Except.ok l
      ∧ ∀ ips, queryAll l fsAbsent ips = ips.map (fun _ => false) :=
  fresh_absent_all_queries_false "/d/f" fsAbsent rfl rfl

/-- C8: two consecutive `IsMatched` calls with the same address and no
intervening change return identical results and identical state, and when
the (at most one) attempted reload succeeds, the two calls together run
the parser at most once — the first call clears the flag, the second skips
reparsing. -/
theorem isMatched_idempotent_at_most_one_reload (b : IPList) (fs : FS) (ip : Addr) :
    (((b.IsMatched fs ip).2.IsMatched fs ip).1 = (b.IsMatched fs ip).1
      ∧ ((b.IsMatched fs ip).2.IsMatched fs ip).2 = (b.IsMatched fs ip).2)
    ∧ ((∃ l', b.loadIPAddresses fs = Except.ok l') →
        b.reloadsPerformed + (b.IsMatched fs ip).2.reloadsPerformed ≤ 1) := by
  by_cases hd : b.reloadNeeded
  · cases hl : b.loadIPAddresses fs with
    | ok l =>
      have hmr : b.maybeReload fs = { l with reloadNeeded := false } := by
        simp [IPList.maybeReload, hd, hl]
      have hmr2 : ({ l with reloadNeeded := false } : IPList).maybeReload fs
          = { l with reloadNeeded := false } := by
        simp [IPList.maybeReload]
      refine ⟨⟨?_, ?_⟩, ?_⟩
      · simp [IPList.IsMatched, hmr, hmr2]
      · simp [IPList.IsMatched, hmr, hmr2]
      · intro _
        simp [IPList.reloadsPerformed, IPList.IsMatched, hmr, hd]
    | error e =>
      have hmr : b.maybeReload fs = b := by
        simp [IPList.maybeReload, hd, hl]
      refine ⟨⟨?_, ?_⟩, ?_⟩
      · simp [IPList.IsMatched, hmr]
      · simp [IPList.IsMatched, hmr]
      · rintro ⟨l', hl'⟩
        simp [hl] at hl'
  · have hmr : b.maybeReload fs = b := by
      simp [IPList.maybeReload, hd]
    refine ⟨⟨?_, ?_⟩, ?_⟩
    · simp [IPList.IsMatched, hmr]
    · simp [IPList.IsMatched, hmr]
    · intro _
      simp [IPList.reloadsPerformed, IPList.IsMatched, hmr, hd]

/-- Witness for C8: a dirty list over a readable file reloads once; the
repeated query performs no further reload. -/
theorem isMatched_idempotent_at_most_one_reload_witness :
    (((bEx.IsMatched fsOk (Addr.v4 1)).2.IsMatched fsOk (Addr.v4 1)).1
        = (bEx.IsMatched fsOk (Addr.v4 1)).1
      ∧ ((bEx.IsMatched fsOk (Addr.v4 1)).2.IsMatched fsOk (Addr.v4 1)).2
        = (bEx.IsMatched fsOk (Addr.v4 1)).2)
    ∧ bEx.reloadsPerformed + (bEx.IsMatched fsOk (Addr.v4 1)).2.reloadsPerformed ≤ 1 :=
  ⟨(isMatched_idempotent_at_most_one_reload bEx fsOk (Addr.v4 1)).1,
   (isMatched_idempotent_at_most_one_reload bEx fsOk (Addr.v4 1)).2 ⟨lEx, rfl⟩⟩

/-- Every snapshot captured by a query along a trace is complete: the
initial sequence or the output of a completed reload. -/
theorem runTrace_captures_are_snapshots (steps : List Step) :
    ∀ b : IPList, ∀ o ∈ (runTrace b steps).2.1,
      o = b.ipAddresses ∨ o ∈ (runTrace b steps).2.2 := by
  induction steps with
  | nil => intro b o ho; simp [runTrace] at ho
  | cons s rest ih =>
    intro b o ho
    cases s with
    | reload fs =>
      by_cases hd : b.reloadNeeded
      · cases hl : b.loadIPAddresses fs with
        | ok l =>
          have hmr : b.maybeReload fs = { l with reloadNeeded := false } := by
            simp [IPList.maybeReload, hd, hl]
          simp only [runTrace, hd, hl, hmr] at ho ⊢
          rcases ih _ o ho with h | h
          · exact Or.inr (by simp [h])
          · exact Or.inr (List.mem_cons_of_mem _ h)
        | error e =>
          have hmr : b.maybeReload fs = b := by
            simp [IPList.maybeReload, hd, hl]
          simp only [runTrace, hd, hl, hmr] at ho ⊢
          exact ih b o ho
      · have hmr : b.maybeReload fs = b := by
          simp [IPList.maybeReload, hd]
        simp only [runTrace, Bool.not_eq_true] at hd
        simp only [runTrace, hd, hmr] at ho ⊢
        exact ih b o ho
    | markDirty =>
      simp only [runTrace] at ho ⊢
      exact ih { b with reloadNeeded := true } o ho
    | capture =>
      simp only [runTrace] at ho ⊢
      rcases List.mem_cons.mp ho with h | h
      · exact Or.inl h
      · exact ih b o h

/-- Along a trace without reload steps, every captured snapshot is exactly
the starting state's sequence. -/
theorem runTrace_no_reload_stable :
    ∀ steps : List Step, (∀ fs, Step.reload fs ∉ steps) →
      ∀ b : IPList, ∀ o ∈ (runTrace b steps).2.1, o = b.ipAddresses := by
  intro steps
  induction steps with
  | nil => intro _ b o ho; simp [runTrace] at ho
  | cons s rest ih =>
    intro hnr b o ho
    cases s with
    | reload fs => exact absurd (List.mem_cons_self _ _) (hnr fs)
    | markDirty =>
      simp only [runTrace] at ho
      exact ih (fun fs hm => hnr fs (List.mem_cons_of_mem _ hm))
        { b with reloadNeeded := true } o ho
    | capture =>
      simp only [runTrace] at ho
      rcases List.mem_cons.mp ho with h | h
      · exact h
      · exact ih (fun fs hm => hnr fs (List.mem_cons_of_mem _ hm)) b o h

/-- C9: in the interleaving model of concurrent queries and reloads, every
query captures a single complete snapshot — the initial sequence or the
output of some completed reload, never a partial mix — and once a reload
completes, every query in a continuation without further reloads observes
exactly the reloaded sequence. -/
theorem concurrent_queries_consistent_snapshots (b : IPList) (steps rest : List Step)
    (fs : FS) (l : IPList)
    (hnr : ∀ g, Step.reload g ∉ rest)
    (hdirty : b.reloadNeeded = true)
    (hload : b.loadIPAddresses fs = Except.ok l) :
    (∀ o ∈ (runTrace b steps).2.1, o = b.ipAddresses ∨ o ∈ (runTrace b steps).2.2)
    ∧ (∀ o ∈ (runTrace (b.maybeReload fs) rest).2.1, o = l.ipAddresses) := by
  constructor
  · exact runTrace_captures_are_snapshots steps b
  · have hmr : b.maybeReload fs = { l with reloadNeeded := false } := by
      simp [IPList.maybeReload, hdirty, hload]
    intro o ho
    rw [hmr] at ho
    exact runTrace_no_reload_stable rest hnr { l with reloadNeeded := false } o ho

/-- Witness for C9 at a concrete dirty list, a trace with an interleaved
reload, and a reload-free continuation after a completed reload. -/
theorem concurrent_queries_consistent_snapshots_witness :
    (∀ o ∈ (runTrace bEx tr1).2.1, o = bEx.ipAddresses ∨ o ∈ (runTrace bEx tr1).2.2)
    ∧ (∀ o ∈ (runTrace (bEx.maybeReload fsOk) tr2).2.1, o = lEx.ipAddresses) :=
  concurrent_queries_consistent_snapshots bEx tr1 tr2 fsOk lEx
    (by intro g; simp [tr2]) rfl rfl

/-- C10: when the configured path names a directory, a reload yields an
empty snapshot and no error — the same as an absent file — so with the
dirty flag set every query from then on returns false rather than
reporting a fault. -/
theorem load_dir_path_like_absent (b : IPList) (fs : FS)
    (hdir : fs b.ipFile = FileNode.dir) :
    b.loadIPAddresses fs = Except.ok { b with ipAddresses := [] }
    ∧ (b.reloadNeeded = true →
        ∀ ips, queryAll b fs ips = ips.map (fun _ => false)) := by
  have hnf : b.ipFileExists fs = false := by
    simp [IPList.ipFileExists, hdir]
  exact ⟨loadIPAddresses_no_file b fs hnf,
    fun hd ips => queryAll_no_file_all_false ips b fs hnf (Or.inl hd)⟩

/-- Witness for C10: a directory sitting at the configured path. -/
theorem load_dir_path_like_absent_witness :
    bEx.loadIPAddresses fsDirAtFile = Except.ok { bEx with ipAddresses := [] }
    ∧ queryAll bEx fsDirAtFile [Addr.v4 1, Addr.v4 2] = [false, false] :=
  ⟨(load_dir_path_like_absent bEx fsDirAtFile rfl).1,
   (load_dir_path_like_absent bEx fsDirAtFile rfl).2 rfl [Addr.v4 1, Addr.v4 2]⟩

end L4RemoteIPList
